import Mathlib

/-!
Verification of the frame-analysis core of a parking-monitor repository.

The development shallowly embeds two source files:

* `src/detection/parking_detection.py` — per-space occupancy classification
  (`check_parking_space`); the mask produced by OpenCV preprocessing is
  modelled as an arbitrary pixel function `Nat → Nat → Nat`, and
  `cv2.countNonZero` on a crop as an explicit count over the cropped
  rectangle. Drawing calls on the annotated image are modelled as an
  explicit list of annotation records, in source order.

* `src/detection/vehicle_counting.py` — the two vehicle trackers
  (`detect_vehicles_traditional`, `detect_vehicles_ml`). Contours coming
  out of `cv2.findContours` are abstracted by their bounding rectangles
  (the only data the source reads from them); detections are the
  `(x1, y1, x2, y2)` boxes handed over by the injected detector. Python's
  floor division `//` is `Int.fdiv`. The `try/except` wrapper of
  `detect_vehicles_ml` is modelled by an explicit failure point: the
  exception can be raised by the detector call, inside the per-detection
  drawing loop, or after the counting loop (cleanup/display); in each case
  the model returns exactly what the `except` branch returns there, with
  the in-place mutation of the `matches` list accounted for.
-/

/-! ### Occupancy classifier (`src/detection/parking_detection.py`) -/

/-- A parking region `(x, y, w, h)` as stored in the positions list. -/
abbrev Pos := Int × Int × Int × Int

/-- Drawing operations `check_parking_space` performs on the annotated
image, in source order: the space's index label (`cv2.putText`), the
colored rectangle (`cv2.rectangle`, `free = true` meaning green),
and the raw-count label (`cvzone.putTextRect`). -/
inductive PAnnot where
  | spaceId (i : Nat) (x y : Int)
  | rect (x y w h : Int) (free : Bool)
  | countLabel (cnt : Nat) (x y : Int)
deriving DecidableEq, Repr

/-- `cv2.countNonZero(processed_img[y:y+h, x:x+w])`: the number of non-zero
mask pixels in the crop. Python slices clamp a negative extent to the
empty slice, which `Int.toNat` reproduces. -/
def countNonZero (mask : Nat → Nat → Nat) (y x h w : Int) : Nat :=
  ((List.range h.toNat).map (fun dy =>
    ((List.range w.toNat).filter
      (fun dx => mask (y.toNat + dy) (x.toNat + dx) != 0)).length)).sum

/-- The in-bounds test of `check_parking_space`
(`y >= 0 and y + h < shape[0] and x >= 0 and x + w < shape[1]`). -/
def boundsOK (imgH imgW x y w h : Int) : Bool :=
  (0 ≤ y) && (y + h < imgH) && (0 ≤ x) && (x + w < imgW)

/-- One iteration of the loop body of `check_parking_space` for the region
at enumeration index `i`: annotations drawn and contribution to
`space_counter`. -/
def checkSpace (mask : Nat → Nat → Nat) (imgH imgW threshold : Int)
    (i : Nat) (p : Pos) : List PAnnot × Nat :=
  let (x, y, w, h) := p
  if boundsOK imgH imgW x y w h then
    let cnt := countNonZero mask y x h w
    let free : Bool := decide ((cnt : Int) < threshold)
    ([PAnnot.spaceId i x y, PAnnot.rect x y w h free,
      PAnnot.countLabel cnt x (y + h - 3)],
     if free then 1 else 0)
  else ([], 0)

/-- The enumeration loop of `check_parking_space`, carrying the
`enumerate` index. -/
def checkSpaces (mask : Nat → Nat → Nat) (imgH imgW threshold : Int) :
    Nat → List Pos → List PAnnot × Nat
  | _, [] => ([], 0)
  | i, p :: ps =>
    let r := checkSpace mask imgH imgW threshold i p
    let rest := checkSpaces mask imgH imgW threshold (i + 1) ps
    (r.1 ++ rest.1, r.2 + rest.2)

/-- `check_parking_space(processed_img, img, parking_positions, threshold)`:
returns the annotations drawn on `img` and the final `space_counter`. -/
def check_parking_space (mask : Nat → Nat → Nat) (imgH imgW : Int)
    (positions : List Pos) (threshold : Int) : List PAnnot × Nat :=
  checkSpaces mask imgH imgW threshold 0 positions

/-- Membership of a pixel in a region's rectangle. -/
def inRegion (x y w h px py : Int) : Prop :=
  x ≤ px ∧ px < x + w ∧ y ≤ py ∧ py < y + h

/-- Membership of a pixel in the frame's pixel bounds. -/
def inFrame (imgH imgW px py : Int) : Prop :=
  0 ≤ px ∧ px < imgW ∧ 0 ≤ py ∧ py < imgH

/-! ### Vehicle trackers (`src/detection/vehicle_counting.py`) -/

/-- A tracked centroid `(cx, cy)`. -/
abbrev Centroid := Int × Int

/-- A contour's bounding rectangle `(x, y, w, h)` from `cv2.boundingRect`. -/
abbrev Rect := Int × Int × Int × Int

/-- An ML detection box `(x1, y1, x2, y2)`; score and class label only feed
the drawn text and are not modelled. -/
abbrev Det := Int × Int × Int × Int

/-- `get_centroid(x, y, w, h) = (x + w // 2, y + h // 2)`
(Python `//` is floor division). -/
def get_centroid (x y w h : Int) : Centroid :=
  (x + Int.fdiv w 2, y + Int.fdiv h 2)

/-- Centroid of a detection box: `((x1 + x2) // 2, (y1 + y2) // 2)`. -/
def detCentroid (d : Det) : Centroid :=
  let (x1, y1, x2, y2) := d
  (Int.fdiv (x1 + x2) 2, Int.fdiv (y1 + y2) 2)

/-- The clamped counting-line position shared by both trackers:
`line_y = line_height; if line_y >= frame.shape[0]: line_y = shape[0] - 50`. -/
def lineY (line_height frameH : Int) : Int :=
  if line_height ≥ frameH then frameH - 50 else line_height

/-- The crossing-band test `(line_y - offset) < y < (line_y + offset)`. -/
def inBand (line_y offset y : Int) : Bool :=
  (line_y - offset < y) && (y < line_y + offset)

/-- Drawing operations performed by the trackers, in source order. -/
inductive TrackAnnot where
  | line (y : Int)
  | box (x1 y1 x2 y2 : Int)
  | dot (x y : Int)
  | clsLabel (x y : Int)
  | countText (n : Int)
deriving DecidableEq, Repr

/-- The contour size filter
`(w >= min_contour_width) and (h >= min_contour_height)`. -/
def contourValid (min_w min_h : Int) (r : Rect) : Bool :=
  (min_w ≤ r.2.2.1) && (min_h ≤ r.2.2.2)

/-- Centroid of a contour rectangle. -/
def rectCentroid (r : Rect) : Centroid :=
  get_centroid r.1 r.2.1 r.2.2.1 r.2.2.2

/-- The combined pool a call of `detect_vehicles_traditional` examines:
the carried-in `matches` plus the centroids of this frame's size-valid
contours, in that order. -/
def combinedPool (pool : List Centroid) (contours : List Rect)
    (min_w min_h : Int) : List Centroid :=
  pool ++ (contours.filter (contourValid min_w min_h)).map rectCentroid

/-- The crossing loop of `detect_vehicles_traditional`: each pool centroid
inside the band increments the counter, every other one is appended to
`remaining_matches`. -/
def crossLoop (line_y offset : Int) :
    List Centroid → List Centroid → Int → List Centroid × Int
  | [], rem, k => (rem, k)
  | c :: rest, rem, k =>
    if inBand line_y offset c.2 then crossLoop line_y offset rest rem (k + 1)
    else crossLoop line_y offset rest (rem ++ [c]) k

/-- `detect_vehicles_traditional`: the contour list stands for the
bounding rectangles of `cv2.findContours` output; returns the drawn
annotations, `remaining_matches` and `new_counter`. -/
def detect_vehicles_traditional (frameH : Int) (contours : List Rect)
    (min_w min_h line_height offset : Int)
    (pool : List Centroid) (vehicle_counter : Int) :
    List TrackAnnot × List Centroid × Int :=
  let line_y := lineY line_height frameH
  let valid := contours.filter (contourValid min_w min_h)
  let annots := TrackAnnot.line line_y ::
    valid.flatMap (fun r =>
      [TrackAnnot.box (r.1 - 10) (r.2.1 - 10)
         (r.1 + r.2.2.1 + 10) (r.2.1 + r.2.2.2 + 10),
       TrackAnnot.dot (rectCentroid r).1 (rectCentroid r).2])
  let new_matches := pool ++ valid.map rectCentroid
  let res := crossLoop line_y offset new_matches [] vehicle_counter
  (annots ++ [TrackAnnot.countText res.2], res.1, res.2)

/-- Where, if anywhere, an exception interrupts `detect_vehicles_ml`'s
`try` block: in the detector call, in the per-detection drawing loop
(both before the counting loop), or after the counting loop
(pool cleanup / count display). -/
inductive MLFailure where
  | detector | drawing | display | none
deriving DecidableEq, Repr

/-- Squared Euclidean distance between centroids;
`np.linalg.norm(a - b) < 50` is `distSq a b < 2500` on integer points. -/
def distSq (a b : Centroid) : Int :=
  (a.1 - b.1) ^ 2 + (a.2 - b.2) ^ 2

/-- The counting loop of `detect_vehicles_ml`: a current centroid inside
the band whose exact value is not yet in `matches` increments the counter
and is appended to `matches` (in-place `matches.append` in the source). -/
def countCross (line_y offset : Int) :
    List Centroid → List Centroid → Int → List Centroid × Int
  | [], m, k => (m, k)
  | c :: rest, m, k =>
    if inBand line_y offset c.2 ∧ c ∉ m then
      countCross line_y offset rest (m ++ [c]) (k + 1)
    else countCross line_y offset rest m k

/-- The pool-cleanup predicate of `detect_vehicles_ml`: keep `m` when some
current-frame centroid is within Euclidean distance 50 of it. -/
def keepNear (current : List Centroid) (m : Centroid) : Bool :=
  current.any (fun c => distSq m c < 2500)

/-- `detect_vehicles_ml`: `dets` is what `ml_detector.detect_vehicles`
would return, `failure` the point where an exception is raised (if any).
On an exception the `except` branch returns `frame, matches,
vehicle_counter`; by then the counting loop may already have appended to
the `matches` list in place, which the `.display` case reproduces. -/
def detect_vehicles_ml (frameH : Int) (dets : List Det)
    (failure : MLFailure) (pool : List Centroid)
    (vehicle_counter : Int) (line_height offset : Int) :
    List TrackAnnot × List Centroid × Int :=
  if failure = MLFailure.detector then ([], pool, vehicle_counter) else
  let line_y := lineY line_height frameH
  if failure = MLFailure.drawing then
    ([TrackAnnot.line line_y], pool, vehicle_counter) else
  let current := dets.map detCentroid
  let drawAnnots := TrackAnnot.line line_y ::
    dets.flatMap (fun d =>
      [TrackAnnot.box d.1 d.2.1 d.2.2.1 d.2.2.2,
       TrackAnnot.dot (detCentroid d).1 (detCentroid d).2,
       TrackAnnot.clsLabel d.1 (d.2.1 - 10)])
  let res := countCross line_y offset current pool vehicle_counter
  if failure = MLFailure.display then (drawAnnots, res.1, vehicle_counter)
  else (drawAnnots ++ [TrackAnnot.countText res.2],
        res.1.filter (keepNear current), res.2)

/-! ### Loop lemmas -/

/-- Splitting the enumeration loop of `check_parking_space` at a final
region: annotations concatenate and counters add, with the appended
region processed at index `i + ps.length`. -/
theorem checkSpaces_append (mask : Nat → Nat → Nat) (imgH imgW threshold : Int)
    (i : Nat) (ps : List Pos) (p : Pos) :
    checkSpaces mask imgH imgW threshold i (ps ++ [p]) =
      ((checkSpaces mask imgH imgW threshold i ps).1 ++
         (checkSpace mask imgH imgW threshold (i + ps.length) p).1,
       (checkSpaces mask imgH imgW threshold i ps).2 +
         (checkSpace mask imgH imgW threshold (i + ps.length) p).2) := by
  induction ps generalizing i with
  | nil => simp [checkSpaces]
  | cons q ps ih =>
    have h := ih (i + 1)
    have hidx : i + 1 + ps.length = i + (ps.length + 1) := by omega
    rw [hidx] at h
    simp [List.cons_append, checkSpaces, h, List.append_assoc, Nat.add_assoc]

/-- The crossing loop of `detect_vehicles_traditional` keeps exactly the
centroids outside the band (in order, after the accumulator) and adds the
number of in-band centroids to the counter. -/
theorem crossLoop_eq (line_y offset : Int) (l rem : List Centroid) (k : Int) :
    crossLoop line_y offset l rem k =
      (rem ++ l.filter (fun c => !(inBand line_y offset c.2)),
       k + (l.countP (fun c => inBand line_y offset c.2) : Int)) := by
  induction l generalizing rem k with
  | nil => simp [crossLoop]
  | cons c rest ih =>
    by_cases hb : inBand line_y offset c.2
    · simp only [crossLoop, hb, if_true, ih, List.filter_cons, List.countP_cons,
        Bool.not_true]
      simp [hb]
      ring
    · simp only [crossLoop, hb, Bool.false_eq_true, if_false, ih,
        List.filter_cons, List.countP_cons]
      have hb' : inBand line_y offset c.2 = false := by
        simpa using hb
      simp [hb', List.append_assoc]

/-- The counting loop of `detect_vehicles_ml` only appends to the carried
pool, and increments the counter once per appended centroid. -/
theorem countCross_extends (line_y offset : Int) (l m : List Centroid) (k : Int) :
    ∃ extra : List Centroid,
      countCross line_y offset l m k = (m ++ extra, k + extra.length) := by
  induction l generalizing m k with
  | nil => exact ⟨[], by simp [countCross]⟩
  | cons c rest ih =>
    by_cases hc : inBand line_y offset c.2 ∧ c ∉ m
    · obtain ⟨extra, hex⟩ := ih (m ++ [c]) (k + 1)
      refine ⟨c :: extra, ?_⟩
      simp only [countCross]
      rw [if_pos hc, hex, Prod.mk.injEq]
      refine ⟨by simp [List.append_assoc], ?_⟩
      simp only [List.length_cons]
      push_cast
      omega
    · obtain ⟨extra, hex⟩ := ih m k
      refine ⟨extra, ?_⟩
      simp only [countCross]
      rw [if_neg hc, hex]

/-! ### Claims about the occupancy classifier -/

/-- C1: For every region that passes the in-bounds check,
`check_parking_space` draws its rectangle with `free = (count < threshold)`
(so it is classified occupied exactly when the non-zero pixel count in the
region is `≥ threshold`) and increments the returned free-space counter by
one exactly when the count is `< threshold`; in particular a count equal to
the threshold is classified occupied. -/
theorem c1_inbounds_classification (mask : Nat → Nat → Nat)
    (imgH imgW threshold : Int) (ps : List Pos) (x y w h : Int)
    (hin : boundsOK imgH imgW x y w h = true) :
    ((check_parking_space mask imgH imgW (ps ++ [(x, y, w, h)]) threshold).2 =
       (check_parking_space mask imgH imgW ps threshold).2 +
         (if (countNonZero mask y x h w : Int) < threshold then 1 else 0)) ∧
    ((check_parking_space mask imgH imgW (ps ++ [(x, y, w, h)]) threshold).1 =
       (check_parking_space mask imgH imgW ps threshold).1 ++
         [PAnnot.spaceId ps.length x y,
          PAnnot.rect x y w h
            (decide ((countNonZero mask y x h w : Int) < threshold)),
          PAnnot.countLabel (countNonZero mask y x h w) x (y + h - 3)]) ∧
    (decide ((countNonZero mask y x h w : Int) < threshold) = false ↔
       threshold ≤ (countNonZero mask y x h w : Int)) ∧
    ((countNonZero mask y x h w : Int) = threshold →
       decide ((countNonZero mask y x h w : Int) < threshold) = false) := by
  unfold check_parking_space
  rw [checkSpaces_append]
  simp only [checkSpace, hin, if_true, Nat.zero_add]
  refine ⟨by simp, by simp, ?_, ?_⟩
  · simp [decide_eq_false_iff_not, not_lt]
  · intro he
    simp [he]

/-- Witness for C1 at a concrete input: an all-ones 2×2 crop counts 4
pixels, below threshold 5, so the free-space counter grows by one. -/
theorem c1_inbounds_classification_witness :
    boundsOK 100 100 0 0 2 2 = true ∧
    (check_parking_space (fun _ _ => 1) 100 100 ([] ++ [(0, 0, 2, 2)]) 5).2 =
      (check_parking_space (fun _ _ => 1) 100 100 [] 5).2 +
        (if ((countNonZero (fun _ _ => 1) 0 0 2 2 : Int) < 5) then 1 else 0) :=
  ⟨by decide,
   (c1_inbounds_classification (fun _ _ => 1) 100 100 5 [] 0 0 2 2
     (by decide)).1⟩

/-- C8: A region entirely outside the frame's pixel bounds (its pixel
rectangle is disjoint from the frame, with positive width and height)
contributes no annotation and nothing to the free-space counter: the call
behaves exactly as if the region were absent, and no error occurs (the
function is total). -/
theorem c8_outside_region_skipped (mask : Nat → Nat → Nat)
    (imgH imgW threshold : Int) (ps : List Pos) (x y w h : Int)
    (hw : 1 ≤ w) (hh : 1 ≤ h)
    (hout : ∀ px py : Int, inRegion x y w h px py →
      ¬ inFrame imgH imgW px py) :
    check_parking_space mask imgH imgW (ps ++ [(x, y, w, h)]) threshold =
      check_parking_space mask imgH imgW ps threshold := by
  have hc : ¬ inFrame imgH imgW x y := by
    refine hout x y ?_
    refine ⟨le_refl x, by omega, le_refl y, by omega⟩
  have hb : boundsOK imgH imgW x y w h = false := by
    cases hbb : boundsOK imgH imgW x y w h
    · rfl
    · exfalso
      simp only [boundsOK, Bool.and_eq_true, decide_eq_true_eq] at hbb
      refine hc ⟨by omega, by omega, by omega, by omega⟩
  unfold check_parking_space
  rw [checkSpaces_append]
  simp [checkSpace, hb]

/-- Witness for C8 at a concrete input: region `(200, 200, 5, 5)` lies
entirely outside a 100×100 frame and changes nothing. -/
theorem c8_outside_region_skipped_witness :
    check_parking_space (fun _ _ => 1) 100 100 ([] ++ [(200, 200, 5, 5)]) 7 =
      check_parking_space (fun _ _ => 1) 100 100 [] 7 :=
  c8_outside_region_skipped (fun _ _ => 1) 100 100 7 [] 200 200 5 5
    (by decide) (by decide)
    (by
      intro px py hr
      simp only [inRegion] at hr
      simp only [inFrame]
      omega)

/-- C10: the in-bounds check uses strict inequalities on the far edges, so
a region whose bottom edge has `y + h = imgH` or whose right edge has
`x + w = imgW` is skipped exactly like an out-of-bounds region — the call
result is unchanged — even though every pixel of the region lies inside
the frame. -/
theorem c10_touching_edge_skipped (mask : Nat → Nat → Nat)
    (imgH imgW threshold : Int) (ps : List Pos) (x y w h : Int)
    (hx : 0 ≤ x) (hy : 0 ≤ y) (hxw : x + w ≤ imgW) (hyh : y + h ≤ imgH)
    (hedge : y + h = imgH ∨ x + w = imgW) :
    (check_parking_space mask imgH imgW (ps ++ [(x, y, w, h)]) threshold =
       check_parking_space mask imgH imgW ps threshold) ∧
    ∀ px py : Int, inRegion x y w h px py → inFrame imgH imgW px py := by
  have hb : boundsOK imgH imgW x y w h = false := by
    cases hbb : boundsOK imgH imgW x y w h
    · rfl
    · exfalso
      simp only [boundsOK, Bool.and_eq_true, decide_eq_true_eq] at hbb
      omega
  constructor
  · unfold check_parking_space
    rw [checkSpaces_append]
    simp [checkSpace, hb]
  · intro px py hr
    obtain ⟨h1, h2, h3, h4⟩ := hr
    exact ⟨by omega, by omega, by omega, by omega⟩

/-- Witness for C10 at a concrete input: region `(0, 90, 10, 10)` touches
the bottom edge of a 100×100 frame (`y + h = 100`) and is skipped. -/
theorem c10_touching_edge_skipped_witness :
    check_parking_space (fun _ _ => 1) 100 100 ([] ++ [(0, 90, 10, 10)]) 7 =
      check_parking_space (fun _ _ => 1) 100 100 [] 7 :=
  (c10_touching_edge_skipped (fun _ _ => 1) 100 100 7 [] 0 90 10 10
    (by decide) (by decide) (by decide) (by decide) (Or.inl (by decide))).1

/-! ### Helper characterizations of the trackers -/

/-- The band test as a decidable proposition. -/
theorem inBand_eq_decide (line_y offset y : Int) :
    inBand line_y offset y =
      decide (line_y - offset < y ∧ y < line_y + offset) := by
  by_cases h1 : line_y - offset < y <;> by_cases h2 : y < line_y + offset <;>
    simp [inBand, h1, h2]

/-- Returned pool of `detect_vehicles_ml` on the exception-free path. -/
theorem ml_none_pool (frameH : Int) (dets : List Det) (pool : List Centroid)
    (k line_height offset : Int) :
    (detect_vehicles_ml frameH dets MLFailure.none pool k
        line_height offset).2.1 =
      (countCross (lineY line_height frameH) offset (dets.map detCentroid)
          pool k).1.filter (keepNear (dets.map detCentroid)) := rfl

/-- Returned counter of `detect_vehicles_ml` on the exception-free path. -/
theorem ml_none_counter (frameH : Int) (dets : List Det)
    (pool : List Centroid) (k line_height offset : Int) :
    (detect_vehicles_ml frameH dets MLFailure.none pool k
        line_height offset).2.2 =
      (countCross (lineY line_height frameH) offset (dets.map detCentroid)
          pool k).2 := rfl

/-- Result of `detect_vehicles_ml` when the detector call raises. -/
theorem ml_detector_eq (frameH : Int) (dets : List Det)
    (pool : List Centroid) (k line_height offset : Int) :
    detect_vehicles_ml frameH dets MLFailure.detector pool k
        line_height offset = ([], pool, k) := rfl

/-- Result of `detect_vehicles_ml` when the drawing loop raises. -/
theorem ml_drawing_eq (frameH : Int) (dets : List Det)
    (pool : List Centroid) (k line_height offset : Int) :
    detect_vehicles_ml frameH dets MLFailure.drawing pool k
        line_height offset =
      ([TrackAnnot.line (lineY line_height frameH)], pool, k) := rfl

/-- Returned pool of `detect_vehicles_ml` when an exception follows the
counting loop: the in-place-mutated `matches` list. -/
theorem ml_display_pool (frameH : Int) (dets : List Det)
    (pool : List Centroid) (k line_height offset : Int) :
    (detect_vehicles_ml frameH dets MLFailure.display pool k
        line_height offset).2.1 =
      (countCross (lineY line_height frameH) offset (dets.map detCentroid)
          pool k).1 := rfl

/-- Returned counter of `detect_vehicles_ml` when an exception follows the
counting loop: the incoming `vehicle_counter`. -/
theorem ml_display_counter (frameH : Int) (dets : List Det)
    (pool : List Centroid) (k line_height offset : Int) :
    (detect_vehicles_ml frameH dets MLFailure.display pool k
        line_height offset).2.2 = k := rfl

/-! ### Claims about the vehicle trackers -/

/-- C3: One call of `detect_vehicles_traditional` increases the counter by
exactly the number of combined-pool centroids (carried plus this frame's
size-valid contour centroids) strictly inside the crossing band, and the
returned pool holds exactly the combined-pool centroids outside the band:
counted centroids are absent and non-band centroids are carried forward. -/
theorem c3_traditional_count_and_pool (frameH : Int) (contours : List Rect)
    (min_w min_h line_height offset : Int) (pool : List Centroid) (k : Int) :
    ((detect_vehicles_traditional frameH contours min_w min_h line_height
        offset pool k).2.2 =
       k + ((combinedPool pool contours min_w min_h).countP
              (fun c => inBand (lineY line_height frameH) offset c.2) : Int)) ∧
    (∀ c : Centroid,
      c ∈ (detect_vehicles_traditional frameH contours min_w min_h
             line_height offset pool k).2.1 ↔
        (c ∈ combinedPool pool contours min_w min_h ∧
           inBand (lineY line_height frameH) offset c.2 = false)) := by
  constructor
  · simp [detect_vehicles_traditional, crossLoop_eq, combinedPool]
  · intro c
    simp [detect_vehicles_traditional, crossLoop_eq, combinedPool,
      List.mem_filter]
    tauto

/-- C9: the vehicle counter never decreases: both trackers return a counter
at least as large as the one passed in (for `detect_vehicles_ml` under
every failure mode as well), and `detect_vehicles_traditional` adds exactly
one per centroid judged to cross the line. -/
theorem c9_counter_monotone (frameH : Int) (contours : List Rect)
    (min_w min_h line_height offset : Int) (pool : List Centroid)
    (dets : List Det) (failure : MLFailure) (k : Int) :
    (k ≤ (detect_vehicles_traditional frameH contours min_w min_h
            line_height offset pool k).2.2) ∧
    ((detect_vehicles_traditional frameH contours min_w min_h line_height
        offset pool k).2.2 =
       k + ((combinedPool pool contours min_w min_h).countP
              (fun c => inBand (lineY line_height frameH) offset c.2) : Int)) ∧
    (k ≤ (detect_vehicles_ml frameH dets failure pool k
            line_height offset).2.2) := by
  have htrad : (detect_vehicles_traditional frameH contours min_w min_h
      line_height offset pool k).2.2 =
        k + ((combinedPool pool contours min_w min_h).countP
              (fun c => inBand (lineY line_height frameH) offset c.2) : Int) := by
    simp [detect_vehicles_traditional, crossLoop_eq, combinedPool]
  refine ⟨by rw [htrad]; omega, htrad, ?_⟩
  cases failure with
  | detector => rw [ml_detector_eq]
  | drawing => rw [ml_drawing_eq]
  | display => rw [ml_display_counter]
  | none =>
    rw [ml_none_counter]
    obtain ⟨extra, hex⟩ := countCross_extends (lineY line_height frameH)
      offset (dets.map detCentroid) pool k
    rw [hex]
    omega

/-- C5: both trackers test the crossing band as the open interval
`(line_y - offset, line_y + offset)` with strict inequalities: a lone
centroid is counted exactly when its `y` lies strictly inside; a centroid
exactly at `line_y` is counted precisely when `offset > 0`; centroids at
`line_y - offset` or `line_y + offset` are never counted. -/
theorem c5_band_strict_open (frameH line_height offset x k : Int) :
    (∀ y : Int,
      (detect_vehicles_traditional frameH [] 0 0 line_height offset
          [(x, y)] k).2.2 =
        if lineY line_height frameH - offset < y ∧
             y < lineY line_height frameH + offset then k + 1 else k) ∧
    (∀ d : Det,
      (detect_vehicles_ml frameH [d] MLFailure.none [] k
          line_height offset).2.2 =
        if lineY line_height frameH - offset < (detCentroid d).2 ∧
             (detCentroid d).2 < lineY line_height frameH + offset
          then k + 1 else k) ∧
    ((detect_vehicles_traditional frameH [] 0 0 line_height offset
        [(x, lineY line_height frameH)] k).2.2 =
       if 0 < offset then k + 1 else k) ∧
    ((detect_vehicles_traditional frameH [] 0 0 line_height offset
        [(x, lineY line_height frameH - offset)] k).2.2 = k) ∧
    ((detect_vehicles_traditional frameH [] 0 0 line_height offset
        [(x, lineY line_height frameH + offset)] k).2.2 = k) := by
  have trad : ∀ y : Int,
      (detect_vehicles_traditional frameH [] 0 0 line_height offset
          [(x, y)] k).2.2 =
        if lineY line_height frameH - offset < y ∧
             y < lineY line_height frameH + offset then k + 1 else k := by
    intro y
    simp only [detect_vehicles_traditional, crossLoop_eq, List.filter_nil,
      List.map_nil, List.append_nil, List.countP_cons, List.countP_nil,
      inBand_eq_decide]
    split_ifs <;> simp_all
  have ml : ∀ d : Det,
      (detect_vehicles_ml frameH [d] MLFailure.none [] k
          line_height offset).2.2 =
        if lineY line_height frameH - offset < (detCentroid d).2 ∧
             (detCentroid d).2 < lineY line_height frameH + offset
          then k + 1 else k := by
    intro d
    rw [ml_none_counter]
    simp only [List.map_cons, List.map_nil, countCross, inBand_eq_decide,
      List.not_mem_nil, not_false_iff, and_true]
    split_ifs <;> simp_all [countCross]
  refine ⟨trad, ml, ?_, ?_, ?_⟩
  · rw [trad]
    split_ifs <;> omega
  · rw [trad]
    split_ifs <;> omega
  · rw [trad]
    split_ifs <;> omega

/-- C7: in both trackers the first drawing operation is the counting line
at `frame_height - 50` when the configured `line_height` is at least the
frame height, and at `line_height` otherwise; a configured `line_height`
of 1000 on a 480-pixel-tall frame yields a line at `y = 430`, and both
calls are total (no error). -/
theorem c7_line_clamp (frameH : Int) (contours : List Rect)
    (min_w min_h line_height offset : Int) (pool : List Centroid)
    (dets : List Det) (k : Int) :
    ((detect_vehicles_traditional frameH contours min_w min_h line_height
        offset pool k).1.head? =
       some (TrackAnnot.line
         (if line_height ≥ frameH then frameH - 50 else line_height))) ∧
    ((detect_vehicles_ml frameH dets MLFailure.none pool k
        line_height offset).1.head? =
       some (TrackAnnot.line
         (if line_height ≥ frameH then frameH - 50 else line_height))) ∧
    ((detect_vehicles_traditional 480 [] 0 0 1000 10 [] 0).1.head? =
       some (TrackAnnot.line 430)) ∧
    ((detect_vehicles_ml 480 [] MLFailure.none [] 0 1000 10).1.head? =
       some (TrackAnnot.line 430)) := by
  refine ⟨?_, ?_, by decide, by decide⟩
  · simp [detect_vehicles_traditional, lineY]
  · simp [detect_vehicles_ml, lineY]

/-- C4: in `detect_vehicles_ml` a detection whose centroid lies in the
crossing band increments the counter only if that exact centroid is not
already in the carried pool; the centroid is then present in the returned
pool, so feeding the identical detection to a second call increments the
counter exactly once across the two calls. -/
theorem c4_ml_exact_dedup (frameH : Int) (d : Det) (pool : List Centroid)
    (k line_height offset : Int)
    (hband : inBand (lineY line_height frameH) offset
      (detCentroid d).2 = true) :
    ((detect_vehicles_ml frameH [d] MLFailure.none pool k
        line_height offset).2.2 =
       if detCentroid d ∈ pool then k else k + 1) ∧
    (detCentroid d ∈ (detect_vehicles_ml frameH [d] MLFailure.none pool k
        line_height offset).2.1) ∧
    ((detect_vehicles_ml frameH [d] MLFailure.none
        (detect_vehicles_ml frameH [d] MLFailure.none pool k
          line_height offset).2.1
        (detect_vehicles_ml frameH [d] MLFailure.none pool k
          line_height offset).2.2
        line_height offset).2.2 =
       (detect_vehicles_ml frameH [d] MLFailure.none pool k
          line_height offset).2.2) := by
  have hself : keepNear [detCentroid d] (detCentroid d) = true := by
    simp [keepNear, distSq]
  have hcc : ∀ (m : List Centroid) (kk : Int),
      countCross (lineY line_height frameH) offset [detCentroid d] m kk =
        if detCentroid d ∈ m then (m, kk) else (m ++ [detCentroid d], kk + 1) := by
    intro m kk
    by_cases hm : detCentroid d ∈ m
    · simp [countCross, hband, hm]
    · simp [countCross, hband, hm]
  have hpool : (detect_vehicles_ml frameH [d] MLFailure.none pool k
      line_height offset).2.1 =
        (if detCentroid d ∈ pool then pool
         else pool ++ [detCentroid d]).filter (keepNear [detCentroid d]) := by
    rw [ml_none_pool]
    simp only [List.map_cons, List.map_nil, hcc]
    by_cases hm : detCentroid d ∈ pool <;> simp [hm]
  have hmem : detCentroid d ∈ (detect_vehicles_ml frameH [d] MLFailure.none
      pool k line_height offset).2.1 := by
    rw [hpool, List.mem_filter]
    refine ⟨?_, hself⟩
    by_cases hm : detCentroid d ∈ pool <;> simp [hm]
  refine ⟨?_, hmem, ?_⟩
  · rw [ml_none_counter]
    simp only [List.map_cons, List.map_nil, hcc]
    by_cases hm : detCentroid d ∈ pool <;> simp [hm]
  · rw [ml_none_counter, List.map_cons, List.map_nil, hcc, if_pos hmem]

/-- Witness for C4 at a concrete input: detection `(10, 10, 20, 20)` has
centroid `(15, 15)`, inside the band around `line_y = 10` with
`offset = 10`, and against an empty pool increments the counter. -/
theorem c4_ml_exact_dedup_witness :
    inBand (lineY 10 480) 10 (detCentroid (10, 10, 20, 20)).2 = true ∧
    (detect_vehicles_ml 480 [(10, 10, 20, 20)] MLFailure.none [] 0
        10 10).2.2 =
      (if detCentroid (10, 10, 20, 20) ∈ ([] : List Centroid)
        then 0 else 0 + 1) :=
  ⟨by decide,
   (c4_ml_exact_dedup 480 (10, 10, 20, 20) [] 0 10 10 (by decide)).1⟩

/-- C6: on the exception-free path of `detect_vehicles_ml` a carried
centroid survives into the returned pool exactly when some current-frame
detection centroid is within Euclidean distance 50 of it
(`distSq < 2500`); with zero detections the returned pool is empty. -/
theorem c6_ml_proximity_prune (frameH : Int) (dets : List Det)
    (pool : List Centroid) (k line_height offset : Int) (m : Centroid)
    (hm : m ∈ pool) :
    (m ∈ (detect_vehicles_ml frameH dets MLFailure.none pool k
        line_height offset).2.1 ↔
      ∃ c ∈ dets.map detCentroid, distSq m c < 2500) ∧
    ((detect_vehicles_ml frameH [] MLFailure.none pool k
        line_height offset).2.1 = []) := by
  constructor
  · rw [ml_none_pool]
    constructor
    · intro hmem
      rw [List.mem_filter] at hmem
      have h2 := hmem.2
      simpa [keepNear, List.any_eq_true] using h2
    · intro hex
      rw [List.mem_filter]
      obtain ⟨extra, hex2⟩ := countCross_extends (lineY line_height frameH)
        offset (dets.map detCentroid) pool k
      refine ⟨?_, ?_⟩
      · rw [hex2]
        exact List.mem_append_left extra hm
      · simpa [keepNear, List.any_eq_true] using hex
  · rw [ml_none_pool]
    simp [countCross, keepNear]

/-- Witness for C6 at a concrete input: carried centroid `(15, 15)` is
within 50 px of the detection centroid `(15, 15)` and survives. -/
theorem c6_ml_proximity_prune_witness :
    ((15, 15) : Centroid) ∈ [((15, 15) : Centroid)] ∧
    (((15, 15) : Centroid) ∈
        (detect_vehicles_ml 480 [(10, 10, 20, 20)] MLFailure.none
          [(15, 15)] 0 100 10).2.1 ↔
      ∃ c ∈ ([(10, 10, 20, 20)] : List Det).map detCentroid,
        distSq (15, 15) c < 2500) :=
  ⟨by decide,
   (c6_ml_proximity_prune 480 [(10, 10, 20, 20)] [(15, 15)] 0 100 10
     (15, 15) (by decide)).1⟩

/-- C2 as stated is false: when the exception is raised after the counting
loop (here: in the final count display), the `except` branch returns the
`matches` list that the counting loop has already extended in place. With
an empty carried pool and one in-band detection, the returned pool is
`[(15, 15)]`, not the empty pool that was passed in. -/
theorem c2_counterexample :
    ¬ ((detect_vehicles_ml 480 [(10, 10, 20, 20)] MLFailure.display []
          0 10 10).2.1 = ([] : List Centroid)) := by
  decide

/-- C2 amended: on any caught exception `detect_vehicles_ml` returns the
vehicle counter exactly as passed in; the pool is returned exactly as
passed in when the exception precedes the counting loop (detector call or
per-detection drawing), while an exception after the counting loop returns
the input pool extended in place with the centroids counted this call. -/
theorem c2_exception_passthrough (frameH : Int) (dets : List Det)
    (failure : MLFailure) (pool : List Centroid)
    (k line_height offset : Int) (hf : failure ≠ MLFailure.none) :
    ((detect_vehicles_ml frameH dets failure pool k
        line_height offset).2.2 = k) ∧
    ((failure = MLFailure.detector ∨ failure = MLFailure.drawing) →
      (detect_vehicles_ml frameH dets failure pool k
          line_height offset).2.1 = pool) ∧
    (failure = MLFailure.display →
      ∃ extra : List Centroid,
        (detect_vehicles_ml frameH dets failure pool k
            line_height offset).2.1 = pool ++ extra) := by
  cases failure with
  | detector =>
    refine ⟨rfl, fun _ => rfl, fun hd => ?_⟩
    exact absurd hd (by simp)
  | drawing =>
    refine ⟨rfl, fun _ => rfl, fun hd => ?_⟩
    exact absurd hd (by simp)
  | display =>
    refine ⟨ml_display_counter frameH dets pool k line_height offset,
      fun hd => ?_, fun _ => ?_⟩
    · rcases hd with hd | hd <;> exact absurd hd (by simp)
    · obtain ⟨extra, hex⟩ := countCross_extends (lineY line_height frameH)
        offset (dets.map detCentroid) pool k
      refine ⟨extra, ?_⟩
      rw [ml_display_pool, hex]
  | none => exact absurd rfl hf

/-- Witness for the amended C2 at a concrete input: a detector failure
leaves counter and pool untouched. -/
theorem c2_exception_passthrough_witness :
    MLFailure.detector ≠ MLFailure.none ∧
    (detect_vehicles_ml 480 [(10, 10, 20, 20)] MLFailure.detector
        [(1, 2)] 5 10 10).2.2 = 5 :=
  ⟨by decide,
   (c2_exception_passthrough 480 [(10, 10, 20, 20)] MLFailure.detector
     [(1, 2)] 5 10 10 (by decide)).1⟩
